import Mathlib

/-!
# Verification of the OpenThread Border Router `RoutingManager`

A shallow embedding of `src/core/border_router/routing_manager.hpp` (the
RA-based routing manager of a Thread Border Router) together with proofs
about its data model and operations.

Only the class header is available in the repository snapshot; the method
bodies live in a companion `.cpp` file that is not part of the snapshot.
Constants and data-layout facts are therefore taken from the header, while
the behaviour of each operation is modelled from the natural-language
specification (definitions carrying a doc comment starting with
`Modelled from the spec:`).

Machine integers are modelled as `Nat`; none of the quantities involved
(lifetimes in seconds, millisecond timestamps, list lengths) can overflow
their C++ types within the ranges the theorems quantify over, because the
spec bounds them (lifetimes are 32-bit seconds, timestamps are monotonic
millisecond clocks).
-/

namespace OtBr

/-- An IPv6 prefix: 16 address bytes plus a bit length, mirroring
`Ip6::Prefix` (128-bit address plus `mLength`). -/
structure Ip6Prefix where
  bytes : List Nat
  length : Nat
deriving DecidableEq, Repr

/-- Strict lexicographic (numeric, big-endian) order on byte sequences. -/
def bytesLtb : List Nat → List Nat → Bool
  | _, [] => false
  | [], _ :: _ => true
  | a :: as, b :: bs => a < b || (a == b && bytesLtb as bs)

/-- Modelled from the spec: prefixes are compared "numerically
(lexicographically)"; bytes first, the prefix length breaking exact
byte ties. -/
def prefixLtb (a b : Ip6Prefix) : Bool :=
  bytesLtb a.bytes b.bytes || (a.bytes == b.bytes && a.length < b.length)

/-- Non-strict version of `prefixLtb`. -/
def prefixLeb (a b : Ip6Prefix) : Bool :=
  prefixLtb a b || a == b

/-- `NetworkData::RoutePreference`: `{Low, Medium, High}` with the total
order `Low < Medium < High`. -/
inductive RoutePreference where
  | low
  | medium
  | high
deriving DecidableEq, Repr

/-- The numeric encoding of route preferences (`-1`, `0`, `1`). -/
def RoutePreference.toInt : RoutePreference → Int
  | .low => -1
  | .medium => 0
  | .high => 1

/-- Strict order on route preferences, via the numeric encoding. -/
def prefLtb (a b : RoutePreference) : Bool :=
  a.toInt < b.toInt

-- Constants taken from the header (`routing_manager.hpp`).

/-- `kMaxOmrPrefixNum` (`MAX_OMR_PREFIXES`): the SLAAC address cap; the
spec gives the default value 3. -/
def kMaxOmrPrefixNum : Nat := 3

/-- `kOmrPrefixLength`: OMR prefixes are /64. -/
def kOmrPrefixLength : Nat := 64

/-- `kOnLinkPrefixLength`: on-link prefixes are /64. -/
def kOnLinkPrefixLength : Nat := 64

/-- `kBrUlaPrefixLength`: the BR ULA prefix is /48. -/
def kBrUlaPrefixLength : Nat := 48

/-- `kNat64PrefixLength`: the NAT64 prefix is /96. -/
def kNat64PrefixLength : Nat := 96

/-- `kOmrPrefixSubnetId = 1`. -/
def kOmrPrefixSubnetId : Nat := 1

/-- `kNat64PrefixSubnetId = 2`. -/
def kNat64PrefixSubnetId : Nat := 2

/-- `kMaxRtrSolicitations = 3`. -/
def kMaxRtrSolicitations : Nat := 3

/-- `kRtrSolicitationInterval = 4` seconds. -/
def kRtrSolicitationInterval : Nat := 4

/-- `kRtrSolicitationRetryDelay = kRtrSolicitationInterval`. -/
def kRtrSolicitationRetryDelay : Nat := kRtrSolicitationInterval

/-- `kMinDelayBetweenRtrAdvs = 3000` milliseconds. -/
def kMinDelayBetweenRtrAdvs : Nat := 3000

/-- `kRtrAdvStaleTime = 1800` seconds (STALE_RA_TIME). -/
def kRtrAdvStaleTime : Nat := 1800

/-- `kMaxRouters` (`OPENTHREAD_CONFIG_BORDER_ROUTING_MAX_DISCOVERED_ROUTERS`),
default 16 per the spec. -/
def kMaxRouters : Nat := 16

/-- `kMaxEntries` (`OPENTHREAD_CONFIG_BORDER_ROUTING_MAX_DISCOVERED_PREFIXES`),
default 64 per the spec. -/
def kMaxEntries : Nat := 64

/-- `RoutingManager::OmrPrefix`: a prefix together with its route
preference. -/
structure OmrPrefix where
  mPrefix : Ip6Prefix
  mPreference : RoutePreference
deriving DecidableEq, Repr

/-- Modelled from the spec: `OmrPrefix::IsFavoredOver` (body not in the
snapshot) — "higher preference wins; on tie, lexicographically smaller
prefix wins". -/
def OmrPrefix.IsFavoredOver (a b : OmrPrefix) : Bool :=
  prefLtb b.mPreference a.mPreference ||
    (a.mPreference == b.mPreference && prefixLtb a.mPrefix b.mPrefix)

/-- `NetworkData::OnMeshPrefixConfig`: the fields the routing policy
inspects. -/
structure OnMeshPrefixConfig where
  mPrefix : Ip6Prefix
  mPreference : RoutePreference
  mOnMesh : Bool
  mDefaultRoute : Bool
  mStable : Bool
  mPreferred : Bool
  mSlaac : Bool
deriving DecidableEq, Repr

/-- First byte of a prefix (0 for the degenerate empty byte list). -/
def Ip6Prefix.headByte (p : Ip6Prefix) : Nat := p.bytes.headD 0

/-- Second byte of a prefix. -/
def Ip6Prefix.sndByte (p : Ip6Prefix) : Nat := (p.bytes.drop 1).headD 0

/-- Global unicast: top 3 address bits are 001. -/
def isGua (p : Ip6Prefix) : Bool := p.headByte / 32 == 1

/-- Unique local: the prefix is within fc00::/7. -/
def isUla (p : Ip6Prefix) : Bool := p.headByte == 0xfc || p.headByte == 0xfd

/-- Link local: within fe80::/10. -/
def isLinkLocal (p : Ip6Prefix) : Bool :=
  p.headByte == 0xfe && p.sndByte / 64 == 2

/-- Multicast: within ff00::/8. -/
def isMulticast (p : Ip6Prefix) : Bool := p.headByte == 0xff

/-- Unspecified: all address bytes zero. -/
def isUnspecified (p : Ip6Prefix) : Bool := p.bytes.all (· == 0)

/-- Modelled from the spec: `IsValidOmrPrefix(p)` (body not in the
snapshot) — length 64, GUA or ULA, and not link-local, multicast or
unspecified. -/
def IsValidOmrPrefixB (p : Ip6Prefix) : Bool :=
  p.length == kOmrPrefixLength && (isGua p || isUla p) &&
    !(isLinkLocal p) && !(isMulticast p) && !(isUnspecified p)

/-- Modelled from the spec: the on-mesh prefix configurations the OMR
selection accepts — valid OMR prefix with flags on-mesh, default-route,
stable, and preferred-or-slaac. -/
def configPassesOmrSelection (c : OnMeshPrefixConfig) : Bool :=
  IsValidOmrPrefixB c.mPrefix && c.mOnMesh && c.mDefaultRoute && c.mStable &&
    (c.mPreferred || c.mSlaac)

/-- Insert an OMR prefix in front of the first element it is favored
over (insertion step of the favored-first ordering). -/
def insertFavored (x : OmrPrefix) : List OmrPrefix → List OmrPrefix
  | [] => [x]
  | y :: ys => if x.IsFavoredOver y then x :: y :: ys else y :: insertFavored x ys

/-- Favored-first insertion sort using `IsFavoredOver`. -/
def sortFavored (l : List OmrPrefix) : List OmrPrefix :=
  l.foldr insertFavored []

/-- Modelled from the spec: `EvaluateOmrPrefix` (body not in the
snapshot) — scan Network Data for acceptable on-mesh prefixes; if none
exist or all are less favored than the local OMR prefix, also publish
and include the local OMR prefix at preference Low; cap the advertised
set at `kMaxOmrPrefixNum`, favored entries first. Returns the advertised
array and whether the local OMR prefix is published. -/
def evaluateOmrPrefixes (netData : List OnMeshPrefixConfig) (localOmr : Ip6Prefix) :
    List OmrPrefix × Bool :=
  let candidates := (netData.filter configPassesOmrSelection).map
    (fun c => OmrPrefix.mk c.mPrefix c.mPreference)
  let localEntry : OmrPrefix := ⟨localOmr, .low⟩
  let includeLocal := candidates.isEmpty || candidates.all (fun c => localEntry.IsFavoredOver c)
  let full := if includeLocal then candidates ++ [localEntry] else candidates
  ((sortFavored full).take kMaxOmrPrefixNum, includeLocal)

/-- Modelled from the spec: the on-link decision of `EvaluateOnLinkPrefix`
(body not in the snapshot) — if a discovered on-link prefix exists
(length-zero sentinel means none) and is numerically ≤ the local on-link
prefix, do not advertise the local prefix; otherwise advertise it. -/
def advertiseLocalOnLink (favoredDiscovered localOnLink : Ip6Prefix) : Bool :=
  if favoredDiscovered.length == 0 then true
  else !(prefixLeb favoredDiscovered localOnLink)

/-- The inputs the routing-policy evaluation reads. -/
structure PolicyInputs where
  netData : List OnMeshPrefixConfig
  favoredDiscoveredOnLinkPrefix : Ip6Prefix
  localOmrPrefix : Ip6Prefix
  localOnLinkPrefix : Ip6Prefix
deriving DecidableEq, Repr

/-- Modelled from the spec: the outputs of one `EvaluateRoutingPolicy`
run — the advertised OMR prefix array and the on-link decision. -/
def evaluateRoutingPolicyOutputs (s : PolicyInputs) : List OmrPrefix × Bool :=
  ((evaluateOmrPrefixes s.netData s.localOmrPrefix).1,
    advertiseLocalOnLink s.favoredDiscoveredOnLinkPrefix s.localOnLinkPrefix)

/-! ## The discovered-prefix table (`DiscoveredPrefixTable`) -/

/-- An IPv6 address (source of an RA), compared only for equality. -/
abbrev Ip6Address := List Nat

/-- `Entry::Type` with the header's enumerator values
`kTypeOnLink = 0`, `kTypeRoute = 1`. -/
inductive EntryType where
  | onLink
  | route
deriving DecidableEq, Repr

/-- The numeric value of each `Entry::Type` enumerator (first enumerator
0, second 1, as in the C++ enum). -/
def EntryType.toNat : EntryType → Nat
  | .onLink => 0
  | .route => 1

/-- The C++ implicit conversion from `Entry::Type` to `bool` applied by
the `Matcher` constructor: nonzero becomes `true`. -/
def EntryType.toBool (t : EntryType) : Bool := t.toNat != 0

/-- The type-specific part of an entry, re-encoding the header's
discriminated union `mShared` (`mPreferredLifetime` when on-link,
`mRoutePreference` otherwise) as a tagged variant. -/
inductive EntryPayload where
  | onLink (mPreferredLifetime : Nat)
  | route (mRoutePreference : RoutePreference)
deriving DecidableEq, Repr

/-- The entry type encoded by a payload variant. -/
def EntryPayload.etype : EntryPayload → EntryType
  | .onLink _ => .onLink
  | .route _ => .route

/-- `DiscoveredPrefixTable::Entry`: one discovered PIO or RIO. Lifetimes
are in seconds, `mLastUpdateTime` in monotonic milliseconds. -/
structure Entry where
  mPrefix : Ip6Prefix
  mLastUpdateTime : Nat
  mValidLifetime : Nat
  mShared : EntryPayload
deriving DecidableEq, Repr

/-- `Entry::GetType`. -/
def Entry.GetType (e : Entry) : EntryType := e.mShared.etype

/-- Modelled from the spec: `Entry::GetExpireTime` (body not in the
snapshot) — an entry is expired iff `now ≥ lastUpdateTime +
validLifetime·1000`. -/
def Entry.GetExpireTime (e : Entry) : Nat :=
  e.mLastUpdateTime + e.mValidLifetime * 1000

/-- Modelled from the spec: `Entry::GetStaleTime` (body not in the
snapshot) — `staleTime = lastUpdateTime + min(validLifetime,
STALE_RA_TIME)·1000`. -/
def Entry.GetStaleTime (e : Entry) : Nat :=
  e.mLastUpdateTime + min e.mValidLifetime kRtrAdvStaleTime * 1000

/-- `Entry::Matcher`: the header stores the entry type in a field
declared `bool`, so the constructor argument of type `Entry::Type`
undergoes the C++ bool conversion. -/
structure Matcher where
  mPrefix : Ip6Prefix
  mType : Bool
deriving DecidableEq, Repr

/-- The `Matcher(aPrefix, aType)` constructor, including the implicit
`Type`-to-`bool` conversion of its second argument. -/
def Matcher.ofPrefixAndType (p : Ip6Prefix) (t : EntryType) : Matcher :=
  ⟨p, t.toBool⟩

/-- Modelled from the spec: `Entry::Matches(Matcher)` (body not in the
snapshot) — the entry matches when its type and prefix equal the
matcher's. Comparing the `Entry::Type` member with the matcher's `bool`
member goes through the C++ integral promotions of both operands. -/
def Entry.MatchesM (e : Entry) (m : Matcher) : Bool :=
  (e.GetType.toNat == m.mType.toNat) && (e.mPrefix == m.mPrefix)

/-- `DiscoveredPrefixTable::Router`: the source address of the RA plus
its list of discovered entries. -/
structure Router where
  mAddress : Ip6Address
  mEntries : List Entry
deriving DecidableEq, Repr

/-- The discovered-prefix table: bounded router list, the set of
prefixes currently published to Network Data, and the
`mAllowDefaultRouteInNetData` gate. -/
structure Table where
  routers : List Router
  published : List Ip6Prefix
  mAllowDefaultRouteInNetData : Bool
deriving DecidableEq, Repr

/-- The empty table. -/
def emptyTable : Table := ⟨[], [], false⟩

/-- Total number of entries across all routers (the entry-pool usage). -/
def totalEntries (t : Table) : Nat :=
  (t.routers.map (fun r => r.mEntries.length)).sum

/-- `Ip6::Nd::PrefixInfoOption` (PIO): the fields the table consumes. -/
structure PrefixInfoOption where
  mPrefix : Ip6Prefix
  mValidLifetime : Nat
  mPreferredLifetime : Nat
  mOnLinkFlag : Bool
  mAutoAddrConfigFlag : Bool
deriving DecidableEq, Repr

/-- `Ip6::Nd::RouteInfoOption` (RIO): the fields the table consumes. -/
structure RouteInfoOption where
  mPrefix : Ip6Prefix
  mRouteLifetime : Nat
  mPreference : RoutePreference
deriving DecidableEq, Repr

/-- `Ip6::Nd::RouterAdvertMessage`: header fields plus the parsed
options. -/
structure RaMessage where
  mRouterLifetime : Nat
  mPreference : RoutePreference
  mPios : List PrefixInfoOption
  mRios : List RouteInfoOption
deriving DecidableEq, Repr

/-- A normalized incoming option as the merge rule sees it: key
`(prefix, type)` with the new valid lifetime and type-specific payload. -/
structure IncomingOpt where
  mPrefix : Ip6Prefix
  mValidLifetime : Nat
  mShared : EntryPayload
deriving DecidableEq, Repr

/-- The entry type of an incoming option. -/
def IncomingOpt.etype (o : IncomingOpt) : EntryType := o.mShared.etype

/-- Key match between an incoming option and a stored entry:
same prefix and same type. -/
def entryKeyMatchB (o : IncomingOpt) (e : Entry) : Bool :=
  e.mPrefix == o.mPrefix && e.GetType == o.etype

/-- The `::/0` prefix used for the synthetic default-route entry
derived from the RA header. -/
def defaultRoutePfx : Ip6Prefix := ⟨List.replicate 16 0, 0⟩

/-- Modelled from the spec: `IsValidOnLinkPrefix(p)` (body not in the
snapshot) — length 64 and neither link-local nor multicast. -/
def IsValidOnLinkPrefixB (p : Ip6Prefix) : Bool :=
  p.length == kOnLinkPrefixLength && !(isLinkLocal p) && !(isMulticast p)

/-- Modelled from the spec: `ShouldProcessPrefixInfoOption` (body not in
the snapshot) — a PIO is processed when its prefix is a valid on-link
prefix, the A (autonomous) flag is set, and the preferred lifetime is
positive. -/
def shouldProcessPio (po : PrefixInfoOption) : Bool :=
  IsValidOnLinkPrefixB po.mPrefix && po.mAutoAddrConfigFlag &&
    decide (0 < po.mPreferredLifetime)

/-- Modelled from the spec: `ShouldProcessRouteInfoOption` (body not in
the snapshot) — the spec delegates the gate to the `RoutingManager` and
states no further condition, so every RIO is processed. -/
def shouldProcessRio (_ro : RouteInfoOption) : Bool := true

/-- The incoming option derived from a PIO (an on-link entry). -/
def pioToOpt (po : PrefixInfoOption) : IncomingOpt :=
  ⟨po.mPrefix, po.mValidLifetime, .onLink po.mPreferredLifetime⟩

/-- The incoming option derived from a RIO (a route entry). -/
def rioToOpt (ro : RouteInfoOption) : IncomingOpt :=
  ⟨ro.mPrefix, ro.mRouteLifetime, .route ro.mPreference⟩

/-- Modelled from the spec: the synthetic default-route RIO derived from
the RA header — prefix `::/0`, valid lifetime the router lifetime,
preference the header's prf field. -/
def defaultRouteOpt (ra : RaMessage) : IncomingOpt :=
  ⟨defaultRoutePfx, ra.mRouterLifetime, .route ra.mPreference⟩

/-- Modelled from the spec: the ordered list of options one
`ProcessRouterAdvertMessage` call merges — the synthetic default route,
then the gated PIOs, then the gated RIOs. -/
def raOptions (ra : RaMessage) : List IncomingOpt :=
  defaultRouteOpt ra :: ((ra.mPios.filter shouldProcessPio).map pioToOpt ++
    (ra.mRios.filter shouldProcessRio).map rioToOpt)

/-- Modelled from the spec: the merge rule applied to one router's entry
list. Key = (prefix, type). Incoming `validLifetime == 0` removes a
matching entry; otherwise a matching entry gets the new valid lifetime,
type-specific payload and `lastUpdateTime = now`; otherwise a new entry
is allocated when the pool has room (`room`), and the option is silently
dropped when it does not. -/
def processOptionOnRouter (now : Nat) (o : IncomingOpt) (room : Bool)
    (es : List Entry) : List Entry :=
  if o.mValidLifetime == 0 then
    es.filter (fun e => !entryKeyMatchB o e)
  else if es.any (entryKeyMatchB o) then
    es.map (fun e =>
      if entryKeyMatchB o e then
        { e with mValidLifetime := o.mValidLifetime, mShared := o.mShared,
                 mLastUpdateTime := now }
      else e)
  else if room then
    es ++ [{ mPrefix := o.mPrefix, mLastUpdateTime := now,
             mValidLifetime := o.mValidLifetime, mShared := o.mShared }]
  else es

/-- Apply `f` to the first element satisfying `p` (the located router),
leaving the rest unchanged. -/
def updateFirst (p : α → Bool) (f : α → α) : List α → List α
  | [] => []
  | x :: xs => if p x then f x :: xs else x :: updateFirst p f xs

/-- Whether the router with the given source address currently stores an
entry matching the option's key. -/
def routerHasKey (t : Table) (src : Ip6Address) (o : IncomingOpt) : Bool :=
  match t.routers.find? (fun r => r.mAddress == src) with
  | some r => r.mEntries.any (entryKeyMatchB o)
  | none => false

/-- Insert a prefix into the published list if absent. -/
def insertIfAbsent (p : Ip6Prefix) (l : List Ip6Prefix) : List Ip6Prefix :=
  if l.contains p then l else l ++ [p]

/-- Modelled from the spec: merging one option into the table — update
the located router's entry list, and maintain the Network Data
publications: a removal (incoming `validLifetime == 0` with the entry
present) unpublishes the prefix; a stored route entry is published as an
external route (the `::/0` synthetic route only when
`mAllowDefaultRouteInNetData` allows); on-link entries are not published
by the table. -/
def processOptionTable (now : Nat) (src : Ip6Address) (t : Table)
    (o : IncomingOpt) : Table :=
  let room := decide (totalEntries t < kMaxEntries)
  let existed := routerHasKey t src o
  let routers' := updateFirst (fun r => r.mAddress == src)
    (fun r => { r with mEntries := processOptionOnRouter now o room r.mEntries })
    t.routers
  let published' :=
    if o.mValidLifetime == 0 then
      if existed then t.published.filter (fun q => !(q == o.mPrefix)) else t.published
    else
      match o.mShared with
      | .route _ =>
        if (existed || room) &&
            (t.mAllowDefaultRouteInNetData || !(o.mPrefix == defaultRoutePfx)) then
          insertIfAbsent o.mPrefix t.published
        else t.published
      | .onLink _ => t.published
  { t with routers := routers', published := published' }

/-- Modelled from the spec: `RemoveRoutersWithNoEntries` — a router is
removed when its entry list becomes empty. -/
def removeRoutersWithNoEntries (t : Table) : Table :=
  { t with routers := t.routers.filter (fun r => !r.mEntries.isEmpty) }

/-- Append a new router with an empty entry list for the given source. -/
def addRouter (src : Ip6Address) (t : Table) : Table :=
  { t with routers := t.routers ++ [⟨src, []⟩] }

/-- Modelled from the spec: `ProcessRouterAdvertMessage(ra, src)` —
locate or create the router keyed by the source address (dropping the
whole message when creation would exceed `kMaxRouters`), merge the
synthetic default route and every gated PIO and RIO, then remove routers
whose entry lists became empty. -/
def processRouterAdvert (now : Nat) (src : Ip6Address) (ra : RaMessage)
    (t : Table) : Table :=
  if t.routers.any (fun r => r.mAddress == src) then
    removeRoutersWithNoEntries
      ((raOptions ra).foldl (fun acc o => processOptionTable now src acc o) t)
  else if t.routers.length < kMaxRouters then
    removeRoutersWithNoEntries
      ((raOptions ra).foldl (fun acc o => processOptionTable now src acc o)
        (addRouter src t))
  else t

/-- Whether some router still stores a route entry for the prefix. -/
def hasRouteEntry (rs : List Router) (p : Ip6Prefix) : Bool :=
  rs.any (fun r => r.mEntries.any (fun e => e.GetType == .route && e.mPrefix == p))

/-- Modelled from the spec: the expiry sweep — remove every entry whose
expire time has been reached, remove routers whose entry lists became
empty, and drop publications whose prefix no longer has a route entry. -/
def removeExpired (now : Nat) (t : Table) : Table :=
  let keep := fun (e : Entry) => decide (now < e.GetExpireTime)
  let swept := t.routers.map (fun r => { r with mEntries := r.mEntries.filter keep })
  let routers' := swept.filter (fun r => !r.mEntries.isEmpty)
  { t with routers := routers',
           published := t.published.filter (fun p => hasRouteEntry routers' p) }

/-- Modelled from the spec: `RemoveAllEntries` — drain the table and the
publications. -/
def removeAllTableEntries (t : Table) : Table :=
  { t with routers := [], published := [] }

/-- Modelled from the spec: `RemoveOnLinkPrefix` / `RemoveRoutePrefix` —
remove every entry with the given (prefix, type) key, remove routers
whose entry lists became empty, and unpublish the prefix when the
`NetDataMode` asks to. -/
def removeMatchingTable (p : Ip6Prefix) (ty : EntryType) (unpublish : Bool)
    (t : Table) : Table :=
  let keep := fun (e : Entry) => !(e.mPrefix == p && e.GetType == ty)
  let swept := t.routers.map (fun r => { r with mEntries := r.mEntries.filter keep })
  let routers' := swept.filter (fun r => !r.mEntries.isEmpty)
  let published' := if unpublish then t.published.filter (fun q => !(q == p))
                    else t.published
  { t with routers := routers', published := published' }

/-- The reachable states `(now, table)` of the discovered-prefix table,
parameterized by a predicate `P` restricting the RA messages the
environment may deliver. Time is monotonic and the expiry timer fires
(at the latest) whenever time advances, as the spec's single table-wide
timer does. -/
inductive Reach (P : RaMessage → Prop) : Nat × Table → Prop where
  | init : Reach P (0, emptyTable)
  | ra (now : Nat) (t : Table) (src : Ip6Address) (msg : RaMessage) :
      Reach P (now, t) → P msg → Reach P (now, processRouterAdvert now src msg t)
  | advance (now now' : Nat) (t : Table) :
      Reach P (now, t) → now ≤ now' → Reach P (now', removeExpired now' t)
  | removeAll (now : Nat) (t : Table) :
      Reach P (now, t) → Reach P (now, removeAllTableEntries t)
  | removeMatching (now : Nat) (t : Table) (p : Ip6Prefix) (ty : EntryType)
      (unpublish : Bool) :
      Reach P (now, t) → Reach P (now, removeMatchingTable p ty unpublish t)

/-! ## The RS/RA state machine -/

/-- The RS/RA state machine states: `Stopped`, `Soliciting`,
`Advertising`. -/
inductive RmState where
  | stopped
  | soliciting
  | advertising
deriving DecidableEq, Repr

/-- The part of the `RoutingManager` state the Router Solicitation timer
handler touches: the machine state, `mRouterSolicitCount`, and the next
scheduled fire time of `mRouterSolicitTimer` (monotonic milliseconds). -/
structure SolicitState where
  mState : RmState
  mRouterSolicitCount : Nat
  mTimerFireTime : Nat
deriving DecidableEq, Repr

/-- Modelled from the spec: `HandleRouterSolicitTimer` (body not in the
snapshot). While fewer than `kMaxRtrSolicitations` solicitations have
been sent: transmit an RS; on success increment the count and reschedule
after `kRtrSolicitationInterval` seconds; on failure reschedule after
`kRtrSolicitationRetryDelay` seconds without incrementing. Once the
count has reached `kMaxRtrSolicitations`, move to `Advertising`. -/
def handleRouterSolicitTimer (now : Nat) (sendOk : Bool) (s : SolicitState) :
    SolicitState :=
  if s.mRouterSolicitCount < kMaxRtrSolicitations then
    if sendOk then
      { s with mRouterSolicitCount := s.mRouterSolicitCount + 1,
               mTimerFireTime := now + kRtrSolicitationInterval * 1000 }
    else
      { s with mTimerFireTime := now + kRtrSolicitationRetryDelay * 1000 }
  else
    { s with mState := .advertising }

/-! ## Router Advertisement transmit pacing -/

/-- Modelled from the spec: the transmit-pacing check guarding every
outbound RA — a send attempted while
`now < mLastRouterAdvertisementSendTime + kMinDelayBetweenRtrAdvs` is
suppressed (deferred) and the state is unchanged; otherwise the RA is
transmitted and `mLastRouterAdvertisementSendTime` becomes `now`. The
state is the value of `mLastRouterAdvertisementSendTime`. -/
def trySendRouterAdvert (now last : Nat) : Bool × Nat :=
  if now < last + kMinDelayBetweenRtrAdvs then (false, last) else (true, now)

/-- Run a sequence of send attempts (at the given monotonic times)
through the pacing check, returning the times of the RAs actually
transmitted. -/
def runPacing : Nat → List Nat → List Nat
  | _, [] => []
  | last, t :: ts =>
    match trySendRouterAdvert t last with
    | (false, lastKept) => runPacing lastKept ts
    | (true, lastNew) => t :: runPacing lastNew ts

/-! ## The public surface: Init, SetEnabled and the getters -/

/-- `ot::Error` values the routing manager's public surface returns. -/
inductive OtError where
  | kErrorNone
  | kErrorInvalidState
  | kErrorInvalidArgs
deriving DecidableEq, Repr

/-- The `RoutingManager` state the public surface touches.
`mIsInitialized` mirrors `mInfraIf.IsInitialized()`. -/
structure RoutingManagerS where
  mIsInitialized : Bool
  mInfraIfIndex : Nat
  mInfraIfIsRunning : Bool
  mIsEnabled : Bool
  mLocalOmrPrefix : Ip6Prefix
  mLocalOnLinkPrefix : Ip6Prefix
  mLocalNat64Prefix : Ip6Prefix
deriving DecidableEq, Repr

/-- Modelled from the spec: `RoutingManager::Init` (body not in the
snapshot) — fails with `kErrorInvalidArgs` when the infrastructure
interface index is invalid (index 0), leaving the state unchanged;
otherwise records the interface and initializes the manager. -/
def rmInit (aInfraIfIndex : Nat) (aInfraIfIsRunning : Bool)
    (s : RoutingManagerS) : OtError × RoutingManagerS :=
  if aInfraIfIndex = 0 then (.kErrorInvalidArgs, s)
  else (.kErrorNone, { s with mIsInitialized := true,
                              mInfraIfIndex := aInfraIfIndex,
                              mInfraIfIsRunning := aInfraIfIsRunning })

/-- Modelled from the spec: `RoutingManager::SetEnabled` (body not in
the snapshot) — `kErrorInvalidState` before initialization with the
state unchanged, `kErrorNone` afterwards. -/
def rmSetEnabled (aEnabled : Bool) (s : RoutingManagerS) :
    OtError × RoutingManagerS :=
  if s.mIsInitialized then (.kErrorNone, { s with mIsEnabled := aEnabled })
  else (.kErrorInvalidState, s)

/-- Modelled from the spec: `RoutingManager::GetOmrPrefix` (body not in
the snapshot) — `kErrorInvalidState` before initialization, otherwise
the local OMR prefix. -/
def rmGetOmrPrefix (s : RoutingManagerS) : OtError × Option Ip6Prefix :=
  if s.mIsInitialized then (.kErrorNone, some s.mLocalOmrPrefix)
  else (.kErrorInvalidState, none)

/-- Modelled from the spec: `RoutingManager::GetOnLinkPrefix` (body not
in the snapshot). -/
def rmGetOnLinkPrefix (s : RoutingManagerS) : OtError × Option Ip6Prefix :=
  if s.mIsInitialized then (.kErrorNone, some s.mLocalOnLinkPrefix)
  else (.kErrorInvalidState, none)

/-- Modelled from the spec: `RoutingManager::GetNat64Prefix` (body not
in the snapshot). -/
def rmGetNat64Prefix (s : RoutingManagerS) : OtError × Option Ip6Prefix :=
  if s.mIsInitialized then (.kErrorNone, some s.mLocalNat64Prefix)
  else (.kErrorInvalidState, none)

/-! ## Local prefix generation -/

/-- The `k` big-endian bytes of a natural number (most significant
first). -/
def natToBytesBE : Nat → Nat → List Nat
  | 0, _ => []
  | k + 1, n => (n / 256 ^ k % 256) :: natToBytesBE k n

/-- Modelled from the spec: BR ULA prefix generation — draw 40 random
bits `r` and form `fd ∥ r` as a /48 (the remaining address bytes are
zero). -/
def generateBrUlaPrefix (r : Nat) : Ip6Prefix :=
  ⟨0xfd :: natToBytesBE 5 r ++ List.replicate 10 0, kBrUlaPrefixLength⟩

/-- Modelled from the spec: `GenerateOmrPrefix` (body not in the
snapshot) — the OMR prefix is the BR ULA prefix followed by the
big-endian 16-bit subnet id `kOmrPrefixSubnetId` and zeros, /64. -/
def generateOmrPrefix (brUla : Ip6Prefix) : Ip6Prefix :=
  ⟨brUla.bytes.take 6 ++ natToBytesBE 2 kOmrPrefixSubnetId ++ List.replicate 8 0,
    kOmrPrefixLength⟩

/-- Modelled from the spec: `GenerateNat64Prefix` (body not in the
snapshot) — the NAT64 prefix is the BR ULA prefix followed by the
big-endian 16-bit subnet id `kNat64PrefixSubnetId` and zeros, /96. -/
def generateNat64Prefix (brUla : Ip6Prefix) : Ip6Prefix :=
  ⟨brUla.bytes.take 6 ++ natToBytesBE 2 kNat64PrefixSubnetId ++ List.replicate 8 0,
    kNat64PrefixLength⟩

/-- Modelled from the spec: `GenerateOnLinkPrefix` (body not in the
snapshot) — a random /64 within the ULA space. -/
def generateOnLinkPrefix (r : Nat) : Ip6Prefix :=
  ⟨0xfd :: natToBytesBE 7 r ++ List.replicate 8 0, kOnLinkPrefixLength⟩

/-- Modelled from the spec: `IsValidBrUlaPrefix` (body not in the
snapshot) — length 48 and first byte `0xfd`. -/
def IsValidBrUlaPrefixB (p : Ip6Prefix) : Bool :=
  p.length == kBrUlaPrefixLength && p.headByte == 0xfd

/-! ## Sample values used by witnesses and counterexamples -/

/-- A sample ULA /64 prefix, `fd00::/64`. -/
def samplePfxA : Ip6Prefix := ⟨[0xfd, 0, 0, 0, 0, 0, 0, 0, 0, 0, 0, 0, 0, 0, 0, 0], 64⟩

/-- A second, numerically larger sample ULA /64 prefix,
`fd00:0:0:1::/64`. -/
def samplePfxB : Ip6Prefix := ⟨[0xfd, 0, 0, 0, 0, 0, 0, 1, 0, 0, 0, 0, 0, 0, 0, 0], 64⟩

/-- The length-zero sentinel meaning "no favored discovered on-link
prefix". -/
def noDiscoveredOnLink : Ip6Prefix := ⟨List.replicate 16 0, 0⟩

/-- A sample link-local source address, `fe80::1`. -/
def sampleSrc : Ip6Address := [0xfe, 0x80, 0, 0, 0, 0, 0, 0, 0, 0, 0, 0, 0, 0, 0, 1]

/-- An RA carrying one well-formed PIO (preferred 1700 ≤ valid 1800). -/
def sampleGoodRa : RaMessage := ⟨0, .medium, [⟨samplePfxA, 1800, 1700, true, true⟩], []⟩

/-- The table after processing `sampleGoodRa` at time 0 from the empty
table. -/
def sampleGoodTable : Table := processRouterAdvert 0 sampleSrc sampleGoodRa emptyTable

/-! ## Theorems -/

/-- The per-entry freshness invariant: no stored entry has reached its
expire time. -/
def tableFresh (now : Nat) (t : Table) : Prop :=
  ∀ r ∈ t.routers, ∀ e ∈ r.mEntries,
    now < e.mLastUpdateTime + e.mValidLifetime * 1000

/-- The per-entry lifetime well-formedness: an on-link entry's preferred
lifetime does not exceed its valid lifetime. -/
def entryWfP (e : Entry) : Prop :=
  ∀ pl, e.mShared = .onLink pl → pl ≤ e.mValidLifetime

/-- Table-wide lifetime well-formedness. -/
def tableWf (t : Table) : Prop :=
  ∀ r ∈ t.routers, ∀ e ∈ r.mEntries, entryWfP e

/-- An RA whose PIOs all carry a preferred lifetime not exceeding the
valid lifetime (what RFC 4861 requires of senders). -/
def raPioWf (ra : RaMessage) : Prop :=
  ∀ po ∈ ra.mPios, po.mPreferredLifetime ≤ po.mValidLifetime

/-- Lifetime well-formedness of an incoming option. -/
def optWfP (o : IncomingOpt) : Prop :=
  ∀ pl, o.mShared = .onLink pl → pl ≤ o.mValidLifetime

/-- C9: for every discovered entry, the stale time equals
`lastUpdateTime + min(validLifetime, STALE_RA_TIME)·1000` ms with
`STALE_RA_TIME = 1800` s; it never exceeds
`lastUpdateTime + 1800·1000` ms, and it equals the expire time whenever
`validLifetime ≤ 1800`. -/
theorem C9_stale_time (e : Entry) :
    e.GetStaleTime = e.mLastUpdateTime + min e.mValidLifetime 1800 * 1000 ∧
    e.GetStaleTime ≤ e.mLastUpdateTime + 1800 * 1000 ∧
    (e.mValidLifetime ≤ 1800 → e.GetStaleTime = e.GetExpireTime) := by
  refine ⟨rfl, ?_, ?_⟩
  · have h : min e.mValidLifetime kRtrAdvStaleTime ≤ 1800 := by
      simp [kRtrAdvStaleTime]
    simp only [Entry.GetStaleTime]
    omega
  · intro h
    simp only [Entry.GetStaleTime, Entry.GetExpireTime, kRtrAdvStaleTime]
    omega

/-- Witness for C9 at a concrete entry with `validLifetime = 600`. -/
theorem C9_stale_time_witness :
    (Entry.mk samplePfxA 0 600 (.onLink 600)).mValidLifetime ≤ 1800 ∧
    (Entry.mk samplePfxA 0 600 (.onLink 600)).GetStaleTime =
      (Entry.mk samplePfxA 0 600 (.onLink 600)).GetExpireTime :=
  ⟨by decide, (C9_stale_time (Entry.mk samplePfxA 0 600 (.onLink 600))).2.2 (by decide)⟩

/-- C10: entry lookup by (prefix, type) is faithful despite the
`Matcher` storing the type in a `bool` field: the enum has exactly the
values `kTypeOnLink = 0` and `kTypeRoute = 1`, the conversion to `bool`
is injective, and `Matches` holds exactly when prefix and type agree
with those the matcher was constructed from. -/
theorem C10_matcher_faithful (e : Entry) (p : Ip6Prefix) (ty : EntryType) :
    (EntryType.toNat .onLink = 0 ∧ EntryType.toNat .route = 1) ∧
    (∀ t1 t2 : EntryType, t1.toBool = t2.toBool → t1 = t2) ∧
    (e.MatchesM (Matcher.ofPrefixAndType p ty) = true ↔
      (e.mPrefix = p ∧ e.GetType = ty)) := by
  refine ⟨⟨rfl, rfl⟩, ?_, ?_⟩
  · intro t1 t2 h
    cases t1 <;> cases t2 <;> first | rfl | simp [EntryType.toBool, EntryType.toNat] at h
  · obtain ⟨ep, lt, vl, sh⟩ := e
    cases sh <;> cases ty <;>
      simp [Entry.MatchesM, Matcher.ofPrefixAndType, Entry.GetType,
        EntryPayload.etype, EntryType.toBool, EntryType.toNat, Bool.toNat,
        and_comm]

/-- Witness for C10: a concrete on-link entry matches the matcher built
from its own prefix and type. -/
theorem C10_matcher_faithful_witness :
    (Entry.mk samplePfxA 0 5 (.onLink 3)).MatchesM
      (Matcher.ofPrefixAndType samplePfxA .onLink) = true :=
  ((C10_matcher_faithful (Entry.mk samplePfxA 0 5 (.onLink 3)) samplePfxA
    .onLink).2.2).mpr ⟨rfl, rfl⟩

/-- C3: in the `Soliciting` state, a successful RS transmission
increments `mRouterSolicitCount` and reschedules after
`kRtrSolicitationInterval` (4 s = 4000 ms); a failed transmission
reschedules after `kRtrSolicitationRetryDelay` (= the interval) without
incrementing; and the handler moves to `Advertising` exactly when the
count has reached `kMaxRtrSolicitations = 3`. -/
theorem C3_router_solicitation (now : Nat) (ok : Bool) (s : SolicitState)
    (hstate : s.mState = .soliciting)
    (hcnt : s.mRouterSolicitCount ≤ kMaxRtrSolicitations) :
    (s.mRouterSolicitCount < kMaxRtrSolicitations → ok = true →
      (handleRouterSolicitTimer now ok s).mRouterSolicitCount = s.mRouterSolicitCount + 1 ∧
      (handleRouterSolicitTimer now ok s).mTimerFireTime = now + 4000 ∧
      (handleRouterSolicitTimer now ok s).mState = .soliciting) ∧
    (s.mRouterSolicitCount < kMaxRtrSolicitations → ok = false →
      (handleRouterSolicitTimer now ok s).mRouterSolicitCount = s.mRouterSolicitCount ∧
      (handleRouterSolicitTimer now ok s).mTimerFireTime = now + kRtrSolicitationRetryDelay * 1000 ∧
      (handleRouterSolicitTimer now ok s).mTimerFireTime = now + 4000 ∧
      (handleRouterSolicitTimer now ok s).mState = .soliciting) ∧
    ((handleRouterSolicitTimer now ok s).mState = .advertising ↔
      s.mRouterSolicitCount = kMaxRtrSolicitations) ∧
    kMaxRtrSolicitations = 3 ∧ kRtrSolicitationInterval = 4 ∧
    kRtrSolicitationRetryDelay = kRtrSolicitationInterval := by
  refine ⟨?_, ?_, ?_, rfl, rfl, rfl⟩
  · intro hlt hok
    subst hok
    simp [handleRouterSolicitTimer, if_pos hlt, hstate, kRtrSolicitationInterval]
  · intro hlt hok
    subst hok
    simp [handleRouterSolicitTimer, if_pos hlt, hstate, kRtrSolicitationRetryDelay,
      kRtrSolicitationInterval]
  · by_cases hlt : s.mRouterSolicitCount < kMaxRtrSolicitations
    · have hne : ¬(s.mRouterSolicitCount = kMaxRtrSolicitations) := by omega
      cases ok <;> simp [handleRouterSolicitTimer, if_pos hlt, hstate, hne]
    · have heq : s.mRouterSolicitCount = kMaxRtrSolicitations := by omega
      simp [handleRouterSolicitTimer, if_neg hlt, heq]

/-- Witness for C3 at a concrete soliciting state with count 2 and a
successful transmission. -/
theorem C3_router_solicitation_witness :
    (handleRouterSolicitTimer 500 true (SolicitState.mk .soliciting 2 0)).mRouterSolicitCount = 3 ∧
    (handleRouterSolicitTimer 500 true (SolicitState.mk .soliciting 2 0)).mTimerFireTime = 4500 ∧
    (handleRouterSolicitTimer 500 true (SolicitState.mk .soliciting 2 0)).mState = .soliciting :=
  (C3_router_solicitation 500 true (SolicitState.mk .soliciting 2 0) rfl
    (by decide)).1 (by decide) rfl

/-- C5: the local prefixes have the fixed layout derived from the BR
ULA prefix — the generated BR ULA prefix is a /48 whose first byte is
`0xfd`; the OMR prefix is the BR ULA bytes followed by the big-endian
16-bit subnet id 1 and zeros at length 64; the NAT64 prefix uses subnet
id 2 at length 96; and the local on-link prefix is a /64. -/
theorem C5_prefix_layout (r q : Nat) :
    IsValidBrUlaPrefixB (generateBrUlaPrefix r) = true ∧
    (generateBrUlaPrefix r).length = 48 ∧
    generateOmrPrefix (generateBrUlaPrefix r) =
      ⟨0xfd :: natToBytesBE 5 r ++ [0, 1] ++ List.replicate 8 0, 64⟩ ∧
    generateNat64Prefix (generateBrUlaPrefix r) =
      ⟨0xfd :: natToBytesBE 5 r ++ [0, 2] ++ List.replicate 8 0, 96⟩ ∧
    (generateOnLinkPrefix q).length = 64 := by
  refine ⟨rfl, rfl, ?_, ?_, rfl⟩ <;>
    simp [generateOmrPrefix, generateNat64Prefix, generateBrUlaPrefix,
      natToBytesBE, kOmrPrefixSubnetId, kNat64PrefixSubnetId,
      kOmrPrefixLength, kNat64PrefixLength, List.take, List.replicate]

/-- C8: every public operation invoked before successful initialization
returns `kErrorInvalidState` and leaves the state unchanged; after
initialization each returns `kErrorNone`; and `Init` returns
`kErrorInvalidArgs` for the invalid interface index, also leaving the
state unchanged. -/
theorem C8_public_surface (s : RoutingManagerS) (e : Bool) (idx : Nat)
    (run : Bool) :
    (s.mIsInitialized = false →
      rmSetEnabled e s = (.kErrorInvalidState, s) ∧
      rmGetOmrPrefix s = (.kErrorInvalidState, none) ∧
      rmGetOnLinkPrefix s = (.kErrorInvalidState, none) ∧
      rmGetNat64Prefix s = (.kErrorInvalidState, none)) ∧
    (s.mIsInitialized = true →
      (rmSetEnabled e s).1 = .kErrorNone ∧
      (rmGetOmrPrefix s).1 = .kErrorNone ∧
      (rmGetOnLinkPrefix s).1 = .kErrorNone ∧
      (rmGetNat64Prefix s).1 = .kErrorNone) ∧
    rmInit 0 run s = (.kErrorInvalidArgs, s) ∧
    (idx ≠ 0 → (rmInit idx run s).1 = .kErrorNone) := by
  refine ⟨?_, ?_, rfl, ?_⟩
  · intro h
    simp [rmSetEnabled, rmGetOmrPrefix, rmGetOnLinkPrefix, rmGetNat64Prefix, h]
  · intro h
    simp [rmSetEnabled, rmGetOmrPrefix, rmGetOnLinkPrefix, rmGetNat64Prefix, h]
  · intro h
    simp [rmInit, h]

/-- Witness for C8 at a concrete uninitialized manager state. -/
theorem C8_public_surface_witness :
    rmSetEnabled true (RoutingManagerS.mk false 0 false true samplePfxA samplePfxA samplePfxA) =
      (.kErrorInvalidState,
        RoutingManagerS.mk false 0 false true samplePfxA samplePfxA samplePfxA) :=
  ((C8_public_surface
    (RoutingManagerS.mk false 0 false true samplePfxA samplePfxA samplePfxA)
    true 2 true).1 rfl).1

/-- Every transmitted RA is at least `kMinDelayBetweenRtrAdvs` after the
previous transmission, where the head state records the previous send
instant. -/
lemma runPacing_chain (ts : List Nat) :
    ∀ last, List.Chain' (fun a b => a + kMinDelayBetweenRtrAdvs ≤ b)
      (last :: runPacing last ts) := by
  induction ts with
  | nil => intro last; simp [runPacing]
  | cons t ts ih =>
    intro last
    by_cases h : t < last + kMinDelayBetweenRtrAdvs
    · have hstep : runPacing last (t :: ts) = runPacing last ts := by
        simp [runPacing, trySendRouterAdvert, if_pos h]
      rw [hstep]
      exact ih last
    · have hstep : runPacing last (t :: ts) = t :: runPacing t ts := by
        simp [runPacing, trySendRouterAdvert, if_neg h]
      rw [hstep, List.chain'_cons]
      exact ⟨by omega, ih t⟩

/-- C4: a send attempted while
`now < mLastRouterAdvertisementSendTime + kMinDelayBetweenRtrAdvs` is
suppressed with the state unchanged, and consequently in any sequence of
send attempts the instants of consecutively transmitted RAs are at least
`kMinDelayBetweenRtrAdvs = 3000` ms apart. -/
theorem C4_ra_min_spacing :
    (∀ now last, now < last + kMinDelayBetweenRtrAdvs →
      trySendRouterAdvert now last = (false, last)) ∧
    (∀ now last, (trySendRouterAdvert now last).1 = true →
      last + kMinDelayBetweenRtrAdvs ≤ now ∧
      (trySendRouterAdvert now last).2 = now) ∧
    (∀ ts : List Nat,
      List.Chain' (fun a b => a + kMinDelayBetweenRtrAdvs ≤ b) (runPacing 0 ts)) ∧
    kMinDelayBetweenRtrAdvs = 3000 := by
  refine ⟨?_, ?_, ?_, rfl⟩
  · intro now last h
    simp [trySendRouterAdvert, if_pos h]
  · intro now last h
    by_cases hlt : now < last + kMinDelayBetweenRtrAdvs
    · simp [trySendRouterAdvert, if_pos hlt] at h
    · exact ⟨by omega, by simp [trySendRouterAdvert, if_neg hlt]⟩
  · intro ts
    exact (runPacing_chain ts 0).tail

/-- Witness for C4: a send attempt 2999 ms after the previous send is
suppressed. -/
theorem C4_ra_min_spacing_witness :
    trySendRouterAdvert 3999 1000 = (false, 1000) :=
  C4_ra_min_spacing.1 3999 1000 (by decide)

/-- `bytesLtb` is irreflexive. -/
lemma bytesLtb_irrefl : ∀ x, bytesLtb x x = false := by
  intro x
  induction x with
  | nil => rfl
  | cons a as ih => simp [bytesLtb, ih]

/-- `bytesLtb` is asymmetric. -/
lemma bytesLtb_asymm : ∀ x y, bytesLtb x y = true → bytesLtb y x = true → False := by
  intro x
  induction x with
  | nil =>
    intro y h1 h2
    simp [bytesLtb] at h2
  | cons a as ih =>
    intro y h1 h2
    cases y with
    | nil => simp [bytesLtb] at h1
    | cons b bs =>
      simp only [bytesLtb, Bool.or_eq_true, Bool.and_eq_true, decide_eq_true_eq,
        beq_iff_eq] at h1 h2
      rcases h1 with h1 | ⟨hab, hrec1⟩ <;> rcases h2 with h2 | ⟨hba, hrec2⟩
      · omega
      · omega
      · omega
      · exact ih bs hrec1 hrec2

/-- `bytesLtb` is total: two byte strings are ordered or equal. -/
lemma bytesLtb_total : ∀ x y, bytesLtb x y = true ∨ bytesLtb y x = true ∨ x = y := by
  intro x
  induction x with
  | nil =>
    intro y
    cases y with
    | nil => exact Or.inr (Or.inr rfl)
    | cons b bs => exact Or.inl rfl
  | cons a as ih =>
    intro y
    cases y with
    | nil => exact Or.inr (Or.inl rfl)
    | cons b bs =>
      rcases Nat.lt_trichotomy a b with hab | hab | hab
      · refine Or.inl ?_
        simp [bytesLtb, hab]
      · subst hab
        rcases ih bs with h | h | h
        · refine Or.inl ?_
          simp [bytesLtb, h]
        · refine Or.inr (Or.inl ?_)
          simp [bytesLtb, h]
        · subst h
          exact Or.inr (Or.inr rfl)
      · refine Or.inr (Or.inl ?_)
        simp [bytesLtb, hab]

/-- `prefixLtb` is asymmetric. -/
lemma prefixLtb_asymm (a b : Ip6Prefix) (h1 : prefixLtb a b = true)
    (h2 : prefixLtb b a = true) : False := by
  simp only [prefixLtb, Bool.or_eq_true, Bool.and_eq_true, decide_eq_true_eq,
    beq_iff_eq] at h1 h2
  rcases h1 with h1 | ⟨hb1, hl1⟩ <;> rcases h2 with h2 | ⟨hb2, hl2⟩
  · exact bytesLtb_asymm _ _ h1 h2
  · rw [hb2] at h1
    rw [bytesLtb_irrefl] at h1
    exact Bool.false_ne_true h1
  · rw [hb1] at h2
    rw [bytesLtb_irrefl] at h2
    exact Bool.false_ne_true h2
  · omega

/-- `prefixLtb` is total. -/
lemma prefixLtb_total (a b : Ip6Prefix) :
    prefixLtb a b = true ∨ prefixLtb b a = true ∨ a = b := by
  rcases bytesLtb_total a.bytes b.bytes with h | h | h
  · refine Or.inl ?_; simp [prefixLtb, h]
  · refine Or.inr (Or.inl ?_); simp [prefixLtb, h]
  · rcases Nat.lt_trichotomy a.length b.length with hl | hl | hl
    · refine Or.inl ?_; simp [prefixLtb, h, hl]
    · refine Or.inr (Or.inr ?_)
      obtain ⟨ab, al⟩ := a
      obtain ⟨bb, bl⟩ := b
      simp only at h hl
      simp [h, hl]
    · refine Or.inr (Or.inl ?_); simp [prefixLtb, h.symm, hl]

/-- `RoutePreference.toInt` is injective. -/
lemma routePreference_toInt_inj (a b : RoutePreference)
    (h : a.toInt = b.toInt) : a = b := by
  cases a <;> cases b <;> first | rfl | simp [RoutePreference.toInt] at h

/-- C1 (amended): `IsFavoredOver(a, b)` holds iff a's preference is
strictly higher, or the preferences are equal and a's prefix is
lexicographically smaller; the comparator is asymmetric and total; and
the routing-policy outputs are a deterministic function of the policy
inputs — two evaluations that agree on Network Data, the discovered
favored on-link prefix, and additionally on the local OMR and on-link
prefixes, produce byte-identical advertised OMR arrays and the same
on-link decision. -/
theorem C1_comparator_determinism :
    (∀ a b : OmrPrefix, a.IsFavoredOver b = true ↔
      (b.mPreference.toInt < a.mPreference.toInt ∨
        (a.mPreference = b.mPreference ∧ prefixLtb a.mPrefix b.mPrefix = true))) ∧
    (∀ a b : OmrPrefix, ¬(a.IsFavoredOver b = true ∧ b.IsFavoredOver a = true)) ∧
    (∀ a b : OmrPrefix, a.IsFavoredOver b = true ∨ b.IsFavoredOver a = true ∨ a = b) ∧
    (∀ s1 s2 : PolicyInputs, s1.netData = s2.netData →
      s1.favoredDiscoveredOnLinkPrefix = s2.favoredDiscoveredOnLinkPrefix →
      s1.localOmrPrefix = s2.localOmrPrefix →
      s1.localOnLinkPrefix = s2.localOnLinkPrefix →
      evaluateRoutingPolicyOutputs s1 = evaluateRoutingPolicyOutputs s2) := by
  have hiff : ∀ a b : OmrPrefix, a.IsFavoredOver b = true ↔
      (b.mPreference.toInt < a.mPreference.toInt ∨
        (a.mPreference = b.mPreference ∧ prefixLtb a.mPrefix b.mPrefix = true)) := by
    intro a b
    simp [OmrPrefix.IsFavoredOver, prefLtb, Bool.or_eq_true, Bool.and_eq_true,
      decide_eq_true_eq, beq_iff_eq]
  refine ⟨hiff, ?_, ?_, ?_⟩
  · rintro a b ⟨h1, h2⟩
    rw [hiff] at h1
    rw [hiff] at h2
    rcases h1 with h1 | ⟨hp1, hx1⟩ <;> rcases h2 with h2 | ⟨hp2, hx2⟩
    · omega
    · rw [hp2] at h1; omega
    · rw [hp1] at h2; omega
    · exact prefixLtb_asymm _ _ hx1 hx2
  · intro a b
    rcases Int.lt_trichotomy a.mPreference.toInt b.mPreference.toInt with hp | hp | hp
    · exact Or.inr (Or.inl ((hiff b a).mpr (Or.inl hp)))
    · have hpe : a.mPreference = b.mPreference := routePreference_toInt_inj _ _ hp
      rcases prefixLtb_total a.mPrefix b.mPrefix with hx | hx | hx
      · exact Or.inl ((hiff a b).mpr (Or.inr ⟨hpe, hx⟩))
      · exact Or.inr (Or.inl ((hiff b a).mpr (Or.inr ⟨hpe.symm, hx⟩)))
      · refine Or.inr (Or.inr ?_)
        obtain ⟨ax, ap⟩ := a
        obtain ⟨bx, bp⟩ := b
        simp only at hpe hx
        simp [hpe, hx]
    · exact Or.inl ((hiff a b).mpr (Or.inl hp))
  · intro s1 s2 h1 h2 h3 h4
    obtain ⟨nd1, f1, o1, l1⟩ := s1
    obtain ⟨nd2, f2, o2, l2⟩ := s2
    simp only at h1 h2 h3 h4
    subst h1; subst h2; subst h3; subst h4
    rfl

/-- Witness for C1 at concrete inputs: the comparator orders the two
sample prefixes and two evaluations on identical full inputs coincide. -/
theorem C1_comparator_determinism_witness :
    (OmrPrefix.mk samplePfxA .low).IsFavoredOver (OmrPrefix.mk samplePfxB .low) = true ∧
    evaluateRoutingPolicyOutputs (PolicyInputs.mk [] noDiscoveredOnLink samplePfxA samplePfxA) =
      evaluateRoutingPolicyOutputs (PolicyInputs.mk [] noDiscoveredOnLink samplePfxA samplePfxA) :=
  ⟨(C1_comparator_determinism.1 _ _).mpr (Or.inr ⟨rfl, by decide⟩),
    C1_comparator_determinism.2.2.2 _ _ rfl rfl rfl rfl⟩

/-- `updateFirst` preserves the list length. -/
lemma length_updateFirst (p : α → Bool) (f : α → α) :
    ∀ l : List α, (updateFirst p f l).length = l.length := by
  intro l
  induction l with
  | nil => rfl
  | cons x xs ih =>
    by_cases h : p x = true <;> simp [updateFirst, h, ih]

/-- Membership after `updateFirst`: an element was already present or is
the image of a present element. -/
lemma mem_updateFirst (p : α → Bool) (f : α → α) :
    ∀ (l : List α) (x : α), x ∈ updateFirst p f l → x ∈ l ∨ ∃ y ∈ l, x = f y := by
  intro l
  induction l with
  | nil => intro x hx; simp [updateFirst] at hx
  | cons z zs ih =>
    intro x hx
    by_cases h : p z = true
    · simp only [updateFirst, if_pos h] at hx
      rcases List.mem_cons.mp hx with rfl | hx
      · exact Or.inr ⟨z, List.mem_cons_self z zs, rfl⟩
      · exact Or.inl (List.mem_cons_of_mem z hx)
    · simp only [updateFirst, if_neg h] at hx
      rcases List.mem_cons.mp hx with rfl | hx
      · exact Or.inl (List.mem_cons_self x zs)
      · rcases ih x hx with hx | ⟨y, hy, hxy⟩
        · exact Or.inl (List.mem_cons_of_mem z hx)
        · exact Or.inr ⟨y, List.mem_cons_of_mem z hy, hxy⟩

/-- Entry-count sum of a router list. -/
def sumLen (l : List Router) : Nat := (l.map (fun r => r.mEntries.length)).sum

/-- `totalEntries` is the entry-count sum over the router list. -/
lemma totalEntries_eq_sumLen (t : Table) : totalEntries t = sumLen t.routers := rfl

/-- `updateFirst` raises the entry-count sum by at most the single
router's increase. -/
lemma sumLen_updateFirst (p : Router → Bool) (f : Router → Router) (d : Nat)
    (hf : ∀ r, (f r).mEntries.length ≤ r.mEntries.length + d) :
    ∀ l : List Router, sumLen (updateFirst p f l) ≤ sumLen l + d := by
  intro l
  induction l with
  | nil => simp [updateFirst, sumLen]
  | cons x xs ih =>
    by_cases h : p x = true
    · simp only [updateFirst, if_pos h, sumLen, List.map_cons, List.sum_cons]
      have := hf x
      simp only [sumLen] at *
      omega
    · simp only [updateFirst, if_neg h, sumLen, List.map_cons, List.sum_cons]
      simp only [sumLen] at ih
      omega

/-- A per-router shrink bounds the entry-count sum over `map`. -/
lemma sumLen_map_le (f : Router → Router)
    (hf : ∀ r, (f r).mEntries.length ≤ r.mEntries.length) :
    ∀ l : List Router, sumLen (l.map f) ≤ sumLen l := by
  intro l
  induction l with
  | nil => simp [sumLen]
  | cons x xs ih =>
    simp only [sumLen, List.map_cons, List.sum_cons] at *
    have := hf x
    omega

/-- Filtering cannot raise the entry-count sum. -/
lemma sumLen_filter_le (p : Router → Bool) :
    ∀ l : List Router, sumLen (l.filter p) ≤ sumLen l := by
  intro l
  induction l with
  | nil => simp [sumLen]
  | cons x xs ih =>
    by_cases h : p x = true
    · simp only [List.filter_cons, h, if_pos, sumLen, List.map_cons, List.sum_cons]
      simp only [sumLen] at ih
      omega
    · simp only [List.filter_cons, h, Bool.false_eq_true, if_neg, sumLen,
        List.map_cons, List.sum_cons, not_false_iff]
      simp only [sumLen] at ih
      omega

/-- The merge rule grows one router's entry list by at most one entry,
and only when the pool has room. -/
lemma len_processOptionOnRouter (now : Nat) (o : IncomingOpt) (room : Bool)
    (es : List Entry) :
    (processOptionOnRouter now o room es).length ≤
      es.length + (if room then 1 else 0) := by
  unfold processOptionOnRouter
  by_cases h0 : (o.mValidLifetime == 0) = true
  · simp only [if_pos h0]
    have := List.length_filter_le (fun e => !entryKeyMatchB o e) es
    omega
  · simp only [if_neg h0]
    by_cases hany : (es.any (entryKeyMatchB o)) = true
    · simp only [if_pos hany, List.length_map]
      omega
    · simp only [if_neg hany]
      cases room with
      | true => simp
      | false => simp

/-- Membership after the merge rule: an entry was already present or
carries the option's fields stamped at `now`. -/
lemma mem_processOptionOnRouter {now : Nat} {o : IncomingOpt} {room : Bool}
    {es : List Entry} {e : Entry}
    (h : e ∈ processOptionOnRouter now o room es) :
    e ∈ es ∨ (e.mLastUpdateTime = now ∧ e.mValidLifetime = o.mValidLifetime ∧
      e.mShared = o.mShared ∧ o.mValidLifetime ≠ 0) := by
  unfold processOptionOnRouter at h
  by_cases h0 : (o.mValidLifetime == 0) = true
  · simp only [if_pos h0] at h
    exact Or.inl (List.mem_filter.mp h).1
  · have hvl : o.mValidLifetime ≠ 0 := by
      intro hc
      rw [hc] at h0
      exact h0 rfl
    simp only [if_neg h0] at h
    by_cases hany : (es.any (entryKeyMatchB o)) = true
    · simp only [if_pos hany] at h
      obtain ⟨e0, he0, heq⟩ := List.mem_map.mp h
      by_cases hk : entryKeyMatchB o e0 = true
      · rw [if_pos hk] at heq
        subst heq
        exact Or.inr ⟨rfl, rfl, rfl, hvl⟩
      · rw [if_neg hk] at heq
        subst heq
        exact Or.inl he0
    · simp only [if_neg hany] at h
      cases room with
      | true =>
        simp only [if_pos rfl] at h
        rcases List.mem_append.mp h with h | h
        · exact Or.inl h
        · rcases List.mem_singleton.mp h with rfl
          exact Or.inr ⟨rfl, rfl, rfl, hvl⟩
      | false =>
        simp only [Bool.false_eq_true, if_neg, not_false_iff] at h
        exact Or.inl h

/-- The merge rule preserves per-entry freshness at the merge time. -/
lemma fresh_processOptionOnRouter (now : Nat) (o : IncomingOpt) (room : Bool)
    (es : List Entry)
    (h : ∀ e ∈ es, now < e.mLastUpdateTime + e.mValidLifetime * 1000) :
    ∀ e ∈ processOptionOnRouter now o room es,
      now < e.mLastUpdateTime + e.mValidLifetime * 1000 := by
  intro e he
  rcases mem_processOptionOnRouter he with he | ⟨h1, h2, _, h4⟩
  · exact h e he
  · rw [h1, h2]
    omega

/-- The merge rule preserves per-entry lifetime well-formedness when the
incoming option is well formed. -/
lemma wf_processOptionOnRouter (now : Nat) (o : IncomingOpt) (room : Bool)
    (es : List Entry) (ho : optWfP o) (h : ∀ e ∈ es, entryWfP e) :
    ∀ e ∈ processOptionOnRouter now o room es, entryWfP e := by
  intro e he
  rcases mem_processOptionOnRouter he with he | ⟨_, h2, h3, _⟩
  · exact h e he
  · intro pl hpl
    rw [h3] at hpl
    rw [h2]
    exact ho pl hpl

/-- `processOptionTable` leaves the router count unchanged. -/
lemma routersLength_processOptionTable (now : Nat) (src : Ip6Address)
    (t : Table) (o : IncomingOpt) :
    (processOptionTable now src t o).routers.length = t.routers.length := by
  simp [processOptionTable, length_updateFirst]

/-- `processOptionTable` keeps the entry pool within its capacity. -/
lemma totalEntries_processOptionTable (now : Nat) (src : Ip6Address)
    (t : Table) (o : IncomingOpt) (h : totalEntries t ≤ kMaxEntries) :
    totalEntries (processOptionTable now src t o) ≤ kMaxEntries := by
  have hroute : (processOptionTable now src t o).routers =
      updateFirst (fun r => r.mAddress == src)
        (fun r => { r with mEntries :=
          processOptionOnRouter now o (decide (totalEntries t < kMaxEntries)) r.mEntries })
        t.routers := rfl
  rw [totalEntries_eq_sumLen, hroute]
  have hb := sumLen_updateFirst (fun r => r.mAddress == src)
    (fun r => { r with mEntries :=
      processOptionOnRouter now o (decide (totalEntries t < kMaxEntries)) r.mEntries })
    (if decide (totalEntries t < kMaxEntries) then 1 else 0)
    (fun r => by
      simpa using len_processOptionOnRouter now o
        (decide (totalEntries t < kMaxEntries)) r.mEntries)
    t.routers
  by_cases hr : totalEntries t < kMaxEntries
  · rw [decide_eq_true hr] at hb ⊢
    simp only [if_true] at hb
    rw [totalEntries_eq_sumLen] at hr
    omega
  · rw [decide_eq_false hr] at hb ⊢
    simp only [Bool.false_eq_true, if_false] at hb
    rw [totalEntries_eq_sumLen] at h
    omega

/-- `processOptionTable` preserves freshness at the merge time. -/
lemma tableFresh_processOptionTable (now : Nat) (src : Ip6Address)
    (t : Table) (o : IncomingOpt) (h : tableFresh now t) :
    tableFresh now (processOptionTable now src t o) := by
  intro r hr e he
  rcases mem_updateFirst _ _ _ _ hr with hr | ⟨r0, hr0, heq⟩
  · exact h r hr e he
  · subst heq
    exact fresh_processOptionOnRouter now o _ r0.mEntries (h r0 hr0) e he

/-- `processOptionTable` preserves lifetime well-formedness for a
well-formed option. -/
lemma tableWf_processOptionTable (now : Nat) (src : Ip6Address)
    (t : Table) (o : IncomingOpt) (ho : optWfP o) (h : tableWf t) :
    tableWf (processOptionTable now src t o) := by
  intro r hr e he
  rcases mem_updateFirst _ _ _ _ hr with hr | ⟨r0, hr0, heq⟩
  · exact h r hr e he
  · subst heq
    exact wf_processOptionOnRouter now o _ r0.mEntries ho (h r0 hr0) e he

/-- A fold preserves an invariant preserved by every step over the
list's elements. -/
lemma foldl_inv {α β : Type} (Inv : α → Prop) (f : α → β → α) :
    ∀ (l : List β) (a : α), (∀ x b, b ∈ l → Inv x → Inv (f x b)) → Inv a →
      Inv (l.foldl f a) := by
  intro l
  induction l with
  | nil => intro a _ h; exact h
  | cons b bs ih =>
    intro a hstep h
    exact ih (f a b)
      (fun x c hc hx => hstep x c (List.mem_cons_of_mem b hc) hx)
      (hstep a b (List.mem_cons_self b bs) h)

/-- Every option an RA with well-formed PIOs contributes is well
formed. -/
lemma raOptions_wf (ra : RaMessage) (h : raPioWf ra) :
    ∀ o ∈ raOptions ra, optWfP o := by
  intro o ho
  unfold raOptions at ho
  rcases List.mem_cons.mp ho with rfl | ho
  · intro pl hpl
    simp [defaultRouteOpt] at hpl
  · rcases List.mem_append.mp ho with ho | ho
    · obtain ⟨po, hpo, heq⟩ := List.mem_map.mp ho
      subst heq
      intro pl hpl
      simp only [pioToOpt, EntryPayload.onLink.injEq] at hpl
      subst hpl
      exact h po (List.mem_filter.mp hpo).1
    · obtain ⟨ro, _, heq⟩ := List.mem_map.mp ho
      subst heq
      intro pl hpl
      simp [rioToOpt] at hpl

/-- Routers surviving `removeRoutersWithNoEntries` come from the
original list. -/
lemma mem_removeRoutersWithNoEntries {t : Table} {r : Router}
    (h : r ∈ (removeRoutersWithNoEntries t).routers) :
    r ∈ t.routers ∧ r.mEntries ≠ [] := by
  have h' := List.mem_filter.mp h
  refine ⟨h'.1, ?_⟩
  intro hc
  rw [hc] at h'
  simp at h'

/-- `addRouter` does not change the entry count. -/
lemma totalEntries_addRouter (src : Ip6Address) (t : Table) :
    totalEntries (addRouter src t) = totalEntries t := by
  simp [addRouter, totalEntries]

/-- Routers of `addRouter`: the old ones plus the fresh empty one. -/
lemma mem_addRouter {src : Ip6Address} {t : Table} {r : Router}
    (h : r ∈ (addRouter src t).routers) :
    r ∈ t.routers ∨ r = ⟨src, []⟩ := by
  simp only [addRouter] at h
  rcases List.mem_append.mp h with h | h
  · exact Or.inl h
  · exact Or.inr (List.mem_singleton.mp h)

/-- Freshness is preserved by one whole-message processing step. -/
lemma tableFresh_processRouterAdvert (now : Nat) (src : Ip6Address)
    (ra : RaMessage) (t : Table) (h : tableFresh now t) :
    tableFresh now (processRouterAdvert now src ra t) := by
  have hfold : ∀ t0 : Table, tableFresh now t0 →
      tableFresh now
        ((raOptions ra).foldl (fun acc o => processOptionTable now src acc o) t0) := by
    intro t0 h0
    exact foldl_inv (tableFresh now) _ (raOptions ra) t0
      (fun x b _ hx => tableFresh_processOptionTable now src x b hx) h0
  unfold processRouterAdvert
  by_cases h1 : (t.routers.any (fun r => r.mAddress == src)) = true
  · simp only [if_pos h1]
    intro r hr e he
    exact hfold t h r (mem_removeRoutersWithNoEntries hr).1 e he
  · simp only [if_neg h1]
    by_cases h2 : t.routers.length < kMaxRouters
    · simp only [if_pos h2]
      intro r hr e he
      have haddr : tableFresh now (addRouter src t) := by
        intro r0 hr0 e0 he0
        rcases mem_addRouter hr0 with hr0 | hr0
        · exact h r0 hr0 e0 he0
        · rw [hr0] at he0
          simp at he0
      exact hfold (addRouter src t) haddr r (mem_removeRoutersWithNoEntries hr).1 e he
    · simp only [if_neg h2]
      exact h

/-- Lifetime well-formedness is preserved by one whole-message
processing step when the RA's PIOs are well formed. -/
lemma tableWf_processRouterAdvert (now : Nat) (src : Ip6Address)
    (ra : RaMessage) (t : Table) (hra : raPioWf ra) (h : tableWf t) :
    tableWf (processRouterAdvert now src ra t) := by
  have hfold : ∀ t0 : Table, tableWf t0 →
      tableWf ((raOptions ra).foldl (fun acc o => processOptionTable now src acc o) t0) := by
    intro t0 h0
    exact foldl_inv tableWf _ (raOptions ra) t0
      (fun x b hb hx => tableWf_processOptionTable now src x b (raOptions_wf ra hra b hb) hx) h0
  unfold processRouterAdvert
  by_cases h1 : (t.routers.any (fun r => r.mAddress == src)) = true
  · simp only [if_pos h1]
    intro r hr e he
    exact hfold t h r (mem_removeRoutersWithNoEntries hr).1 e he
  · simp only [if_neg h1]
    by_cases h2 : t.routers.length < kMaxRouters
    · simp only [if_pos h2]
      intro r hr e he
      have haddw : tableWf (addRouter src t) := by
        intro r0 hr0 e0 he0
        rcases mem_addRouter hr0 with hr0 | hr0
        · exact h r0 hr0 e0 he0
        · rw [hr0] at he0
          simp at he0
      exact hfold (addRouter src t) haddw r (mem_removeRoutersWithNoEntries hr).1 e he
    · simp only [if_neg h2]
      exact h

/-- The resource bounds are preserved by one whole-message processing
step. -/
lemma bounds_processRouterAdvert (now : Nat) (src : Ip6Address)
    (ra : RaMessage) (t : Table) (h1 : t.routers.length ≤ kMaxRouters)
    (h2 : totalEntries t ≤ kMaxEntries) :
    (processRouterAdvert now src ra t).routers.length ≤ kMaxRouters ∧
    totalEntries (processRouterAdvert now src ra t) ≤ kMaxEntries := by
  have hfoldLen : ∀ t0 : Table,
      ((raOptions ra).foldl (fun acc o => processOptionTable now src acc o) t0).routers.length =
        t0.routers.length := by
    intro t0
    exact foldl_inv
      (fun tb : Table => tb.routers.length = t0.routers.length)
      (fun acc o => processOptionTable now src acc o) (raOptions ra) t0
      (fun x b _ hx => by
        show (processOptionTable now src x b).routers.length = t0.routers.length
        rw [routersLength_processOptionTable now src x b]
        exact hx) rfl
  have hfoldTot : ∀ t0 : Table, totalEntries t0 ≤ kMaxEntries →
      totalEntries ((raOptions ra).foldl (fun acc o => processOptionTable now src acc o) t0) ≤
        kMaxEntries := by
    intro t0 h0
    exact foldl_inv (fun tb : Table => totalEntries tb ≤ kMaxEntries) _ (raOptions ra) t0
      (fun x b _ hx => totalEntries_processOptionTable now src x b hx) h0
  unfold processRouterAdvert
  by_cases hc1 : (t.routers.any (fun r => r.mAddress == src)) = true
  · simp only [if_pos hc1]
    constructor
    · calc (removeRoutersWithNoEntries
            ((raOptions ra).foldl (fun acc o => processOptionTable now src acc o) t)).routers.length
          ≤ ((raOptions ra).foldl (fun acc o => processOptionTable now src acc o) t).routers.length :=
            List.length_filter_le _ _
        _ = t.routers.length := hfoldLen t
        _ ≤ kMaxRouters := h1
    · calc totalEntries (removeRoutersWithNoEntries
            ((raOptions ra).foldl (fun acc o => processOptionTable now src acc o) t))
          ≤ totalEntries ((raOptions ra).foldl (fun acc o => processOptionTable now src acc o) t) := by
            rw [totalEntries_eq_sumLen, totalEntries_eq_sumLen]
            exact sumLen_filter_le _ _
        _ ≤ kMaxEntries := hfoldTot t h2
  · simp only [if_neg hc1]
    by_cases hc2 : t.routers.length < kMaxRouters
    · simp only [if_pos hc2]
      constructor
      · calc (removeRoutersWithNoEntries
              ((raOptions ra).foldl (fun acc o => processOptionTable now src acc o)
                (addRouter src t))).routers.length
            ≤ ((raOptions ra).foldl (fun acc o => processOptionTable now src acc o)
                (addRouter src t)).routers.length := List.length_filter_le _ _
          _ = (addRouter src t).routers.length := hfoldLen (addRouter src t)
          _ = t.routers.length + 1 := by simp [addRouter]
          _ ≤ kMaxRouters := hc2
      · calc totalEntries (removeRoutersWithNoEntries
              ((raOptions ra).foldl (fun acc o => processOptionTable now src acc o)
                (addRouter src t)))
            ≤ totalEntries ((raOptions ra).foldl (fun acc o => processOptionTable now src acc o)
                (addRouter src t)) := by
              rw [totalEntries_eq_sumLen, totalEntries_eq_sumLen]
              exact sumLen_filter_le _ _
          _ ≤ kMaxEntries := hfoldTot (addRouter src t) (by rw [totalEntries_addRouter]; exact h2)
    · simp only [if_neg hc2]
      exact ⟨h1, h2⟩

/-- After one whole-message processing step no router has an empty
entry list. -/
lemma noEmpty_processRouterAdvert (now : Nat) (src : Ip6Address)
    (ra : RaMessage) (t : Table) (h : ∀ r ∈ t.routers, r.mEntries ≠ []) :
    ∀ r ∈ (processRouterAdvert now src ra t).routers, r.mEntries ≠ [] := by
  unfold processRouterAdvert
  by_cases hc1 : (t.routers.any (fun r => r.mAddress == src)) = true
  · simp only [if_pos hc1]
    intro r hr
    exact (mem_removeRoutersWithNoEntries hr).2
  · simp only [if_neg hc1]
    by_cases hc2 : t.routers.length < kMaxRouters
    · simp only [if_pos hc2]
      intro r hr
      exact (mem_removeRoutersWithNoEntries hr).2
    · simp only [if_neg hc2]
      exact h

/-- Structure of the routers surviving the expiry sweep. -/
lemma mem_removeExpired {now : Nat} {t : Table} {r : Router}
    (h : r ∈ (removeExpired now t).routers) :
    r.mEntries ≠ [] ∧ ∃ r0 ∈ t.routers,
      r.mEntries = r0.mEntries.filter (fun e => decide (now < e.GetExpireTime)) := by
  simp only [removeExpired] at h
  have h' := List.mem_filter.mp h
  obtain ⟨r0, hr0, heq⟩ := List.mem_map.mp h'.1
  constructor
  · intro hc
    have := h'.2
    rw [hc] at this
    simp at this
  · exact ⟨r0, hr0, by rw [← heq]⟩

/-- The expiry sweep satisfies all four table invariants. -/
lemma master_removeExpired (now : Nat) (t : Table)
    (h1 : t.routers.length ≤ kMaxRouters) (h2 : totalEntries t ≤ kMaxEntries) :
    (removeExpired now t).routers.length ≤ kMaxRouters ∧
    totalEntries (removeExpired now t) ≤ kMaxEntries ∧
    (∀ r ∈ (removeExpired now t).routers, r.mEntries ≠ []) ∧
    tableFresh now (removeExpired now t) ∧
    (tableWf t → tableWf (removeExpired now t)) := by
  refine ⟨?_, ?_, ?_, ?_, ?_⟩
  · refine le_trans (le_trans (List.length_filter_le _ _) ?_) h1
    exact le_of_eq (List.length_map _ _)
  · rw [totalEntries_eq_sumLen]
    have h2s : sumLen t.routers ≤ kMaxEntries := by
      rw [totalEntries_eq_sumLen] at h2
      exact h2
    exact le_trans (sumLen_filter_le _ _)
      (le_trans (sumLen_map_le _ (fun r => by
        simpa using List.length_filter_le _ r.mEntries) _) h2s)
  · intro r hr
    exact (mem_removeExpired hr).1
  · intro r hr e he
    obtain ⟨_, r0, _, heq⟩ := mem_removeExpired hr
    rw [heq] at he
    have hkeep := (List.mem_filter.mp he).2
    have := of_decide_eq_true hkeep
    simpa [Entry.GetExpireTime] using this
  · intro hwf r hr e he
    obtain ⟨_, r0, hr0, heq⟩ := mem_removeExpired hr
    rw [heq] at he
    exact hwf r0 hr0 e (List.mem_filter.mp he).1

/-- Structure of the routers surviving a keyed removal. -/
lemma mem_removeMatchingTable {p : Ip6Prefix} {ty : EntryType} {u : Bool}
    {t : Table} {r : Router}
    (h : r ∈ (removeMatchingTable p ty u t).routers) :
    r.mEntries ≠ [] ∧ ∃ r0 ∈ t.routers,
      r.mEntries = r0.mEntries.filter (fun e => !(e.mPrefix == p && e.GetType == ty)) := by
  simp only [removeMatchingTable] at h
  have h' := List.mem_filter.mp h
  obtain ⟨r0, hr0, heq⟩ := List.mem_map.mp h'.1
  constructor
  · intro hc
    have := h'.2
    rw [hc] at this
    simp at this
  · exact ⟨r0, hr0, by rw [← heq]⟩

/-- Keyed removal satisfies all table invariants it can affect. -/
lemma master_removeMatchingTable (p : Ip6Prefix) (ty : EntryType) (u : Bool)
    (now : Nat) (t : Table)
    (h1 : t.routers.length ≤ kMaxRouters) (h2 : totalEntries t ≤ kMaxEntries) :
    (removeMatchingTable p ty u t).routers.length ≤ kMaxRouters ∧
    totalEntries (removeMatchingTable p ty u t) ≤ kMaxEntries ∧
    (∀ r ∈ (removeMatchingTable p ty u t).routers, r.mEntries ≠ []) ∧
    (tableFresh now t → tableFresh now (removeMatchingTable p ty u t)) ∧
    (tableWf t → tableWf (removeMatchingTable p ty u t)) := by
  refine ⟨?_, ?_, ?_, ?_, ?_⟩
  · refine le_trans (le_trans (List.length_filter_le _ _) ?_) h1
    exact le_of_eq (List.length_map _ _)
  · rw [totalEntries_eq_sumLen]
    have h2s : sumLen t.routers ≤ kMaxEntries := by
      rw [totalEntries_eq_sumLen] at h2
      exact h2
    exact le_trans (sumLen_filter_le _ _)
      (le_trans (sumLen_map_le _ (fun r => by
        simpa using List.length_filter_le _ r.mEntries) _) h2s)
  · intro r hr
    exact (mem_removeMatchingTable hr).1
  · intro hfr r hr e he
    obtain ⟨_, r0, hr0, heq⟩ := mem_removeMatchingTable hr
    rw [heq] at he
    exact hfr r0 hr0 e (List.mem_filter.mp he).1
  · intro hwf r hr e he
    obtain ⟨_, r0, hr0, heq⟩ := mem_removeMatchingTable hr
    rw [heq] at he
    exact hwf r0 hr0 e (List.mem_filter.mp he).1

/-- The master invariant of every reachable state of the
discovered-prefix table: the resource bounds hold, no router is empty,
no stored entry has expired, and — when the environment only delivers
RAs with well-formed PIOs — every on-link entry's preferred lifetime is
bounded by its valid lifetime. -/
lemma reach_master (P : RaMessage → Prop) (s : Nat × Table)
    (hr : Reach P s) :
    s.2.routers.length ≤ kMaxRouters ∧ totalEntries s.2 ≤ kMaxEntries ∧
    (∀ r ∈ s.2.routers, r.mEntries ≠ []) ∧ tableFresh s.1 s.2 ∧
    ((∀ m, P m → raPioWf m) → tableWf s.2) := by
  induction hr with
  | init =>
    refine ⟨by simp [emptyTable, kMaxRouters], by simp [emptyTable, totalEntries, kMaxEntries],
      ?_, ?_, ?_⟩
    · intro r hrr; simp [emptyTable] at hrr
    · intro r hrr; simp [emptyTable] at hrr
    · intro _ r hrr; simp [emptyTable] at hrr
  | ra now t src msg hreach hP ih =>
    obtain ⟨ih1, ih2, ih3, ih4, ih5⟩ := ih
    obtain ⟨hb1, hb2⟩ := bounds_processRouterAdvert now src msg t ih1 ih2
    refine ⟨hb1, hb2, noEmpty_processRouterAdvert now src msg t ih3,
      tableFresh_processRouterAdvert now src msg t ih4, ?_⟩
    intro hPw
    exact tableWf_processRouterAdvert now src msg t (hPw msg hP) (ih5 hPw)
  | advance now now' t hreach hle ih =>
    obtain ⟨ih1, ih2, ih3, ih4, ih5⟩ := ih
    obtain ⟨m1, m2, m3, m4, m5⟩ := master_removeExpired now' t ih1 ih2
    exact ⟨m1, m2, m3, m4, fun hp => m5 (ih5 hp)⟩
  | removeAll now t hreach ih =>
    refine ⟨by simp [removeAllTableEntries, kMaxRouters],
      by simp [removeAllTableEntries, totalEntries, kMaxEntries], ?_, ?_, ?_⟩
    · intro r hrr; simp [removeAllTableEntries] at hrr
    · intro r hrr; simp [removeAllTableEntries] at hrr
    · intro _ r hrr; simp [removeAllTableEntries] at hrr
  | removeMatching now t p ty u hreach ih =>
    obtain ⟨ih1, ih2, ih3, ih4, ih5⟩ := ih
    obtain ⟨m1, m2, m3, m4, m5⟩ := master_removeMatchingTable p ty u now t ih1 ih2
    exact ⟨m1, m2, m3, m4 ih4, fun hp => m5 (ih5 hp)⟩

/-- C7: at every reachable table state there are at most `kMaxRouters`
routers and at most `kMaxEntries` entries; the advertised OMR array
never exceeds `kMaxOmrPrefixNum`; a message from an unknown router
arriving with the router array full is silently dropped with the table
unchanged; and an option needing a new entry with the pool exhausted is
silently dropped with the router's entries unchanged. The defaults are
16 routers, 64 entries and 3 OMR prefixes. -/
theorem C7_resource_bounds :
    (∀ (P : RaMessage → Prop) (s : Nat × Table), Reach P s →
      s.2.routers.length ≤ kMaxRouters ∧ totalEntries s.2 ≤ kMaxEntries) ∧
    (∀ (nd : List OnMeshPrefixConfig) (lo : Ip6Prefix),
      (evaluateOmrPrefixes nd lo).1.length ≤ kMaxOmrPrefixNum) ∧
    (∀ (now : Nat) (src : Ip6Address) (ra : RaMessage) (t : Table),
      (t.routers.any (fun r => r.mAddress == src)) = false →
      ¬(t.routers.length < kMaxRouters) →
      processRouterAdvert now src ra t = t) ∧
    (∀ (now : Nat) (o : IncomingOpt) (es : List Entry),
      o.mValidLifetime ≠ 0 → (es.any (entryKeyMatchB o)) = false →
      processOptionOnRouter now o false es = es) ∧
    kMaxRouters = 16 ∧ kMaxEntries = 64 ∧ kMaxOmrPrefixNum = 3 := by
  refine ⟨?_, ?_, ?_, ?_, rfl, rfl, rfl⟩
  · intro P s hr
    exact ⟨(reach_master P s hr).1, (reach_master P s hr).2.1⟩
  · intro nd lo
    simp only [evaluateOmrPrefixes]
    rw [List.length_take]
    exact min_le_left _ _
  · intro now src ra t h1 h2
    simp [processRouterAdvert, h1, h2]
  · intro now o es h0 hany
    have hb : (o.mValidLifetime == 0) = false := by simpa using h0
    simp [processOptionOnRouter, hb, hany]

/-- Witness for C7 at the concrete one-entry reachable table. -/
theorem C7_resource_bounds_witness :
    sampleGoodTable.routers.length ≤ kMaxRouters ∧
    totalEntries sampleGoodTable ≤ kMaxEntries :=
  C7_resource_bounds.1 (fun _ => True) (0, sampleGoodTable)
    (Reach.ra 0 emptyTable sampleSrc sampleGoodRa Reach.init trivial)

/-- C6 (amended): in every reachable table state no stored entry has
reached its expire time (`now < lastUpdateTime + validLifetime·1000`),
and — provided every delivered RA carries PIOs with
`preferredLifetime ≤ validLifetime`, as RFC 4861 requires of senders —
every stored on-link entry satisfies
`preferredLifetime ≤ validLifetime`. -/
theorem C6_table_invariant (P : RaMessage → Prop) (now : Nat) (t : Table)
    (hr : Reach P (now, t)) :
    tableFresh now t ∧ ((∀ m, P m → raPioWf m) → tableWf t) :=
  ⟨(reach_master P (now, t) hr).2.2.2.1, (reach_master P (now, t) hr).2.2.2.2⟩

/-- Witness for C6 at the concrete one-entry reachable table, under the
environment that only delivers RAs with well-formed PIOs. -/
theorem C6_table_invariant_witness :
    tableFresh 0 sampleGoodTable ∧ tableWf sampleGoodTable :=
  have hreach : Reach raPioWf (0, sampleGoodTable) :=
    Reach.ra 0 emptyTable sampleSrc sampleGoodRa Reach.init (fun po hpo => by
      simp only [sampleGoodRa, List.mem_singleton] at hpo
      subst hpo
      decide)
  ⟨(C6_table_invariant raPioWf 0 sampleGoodTable hreach).1,
    (C6_table_invariant raPioWf 0 sampleGoodTable hreach).2 (fun _ hm => hm)⟩

/-- An RA whose single PIO has `preferredLifetime = 10` exceeding
`validLifetime = 5`. -/
def cexBadRa : RaMessage := ⟨0, .medium, [⟨samplePfxA, 5, 10, true, true⟩], []⟩

/-- The table obtained by processing `cexBadRa` from the empty table. -/
def cexBadTable : Table := processRouterAdvert 0 sampleSrc cexBadRa emptyTable

/-- Counterexample for C6 as frozen: the merge rule stores a PIO's
lifetimes unchecked, so processing an RA whose PIO carries
`preferredLifetime = 10 > validLifetime = 5` (which passes the
processing gate, as that only demands a positive preferred lifetime)
yields a reachable state containing an on-link entry with
`preferredLifetime > validLifetime`. -/
theorem C6_counterexample :
    Reach (fun _ => True) (0, cexBadTable) ∧
    (cexBadTable.routers.any (fun r => r.mEntries.any (fun e =>
      match e.mShared with
      | .onLink pl => decide (e.mValidLifetime < pl)
      | .route _ => false))) = true :=
  ⟨Reach.ra 0 emptyTable sampleSrc cexBadRa Reach.init trivial, by decide⟩

/-- C2: for a processed option with key (prefix, type): an incoming
`validLifetime = 0` removes every matching entry (leaving the rest in
place) and unpublishes the prefix from Network Data when the entry
existed; a nonzero `validLifetime` stamps every matching entry (and the
freshly allocated one) with the new valid lifetime, the type-specific
payload and `lastUpdateTime = now`, leaving non-matching entries in
place and guaranteeing a matching entry exists when one existed before
or the pool had room; and in every reachable state a router whose entry
list became empty has been removed. -/
theorem C2_merge_rule :
    (∀ (now : Nat) (o : IncomingOpt) (room : Bool) (es : List Entry),
      o.mValidLifetime = 0 →
      (∀ e ∈ processOptionOnRouter now o room es, entryKeyMatchB o e = false) ∧
      (∀ e ∈ es, entryKeyMatchB o e = false →
        e ∈ processOptionOnRouter now o room es)) ∧
    (∀ (now : Nat) (o : IncomingOpt) (room : Bool) (es : List Entry),
      o.mValidLifetime ≠ 0 →
      (∀ e ∈ processOptionOnRouter now o room es, entryKeyMatchB o e = true →
        e.mValidLifetime = o.mValidLifetime ∧ e.mShared = o.mShared ∧
        e.mLastUpdateTime = now) ∧
      (∀ e ∈ es, entryKeyMatchB o e = false →
        e ∈ processOptionOnRouter now o room es) ∧
      ((es.any (entryKeyMatchB o)) = true ∨ room = true →
        ((processOptionOnRouter now o room es).any (entryKeyMatchB o)) = true)) ∧
    (∀ (now : Nat) (src : Ip6Address) (t : Table) (o : IncomingOpt),
      o.mValidLifetime = 0 → routerHasKey t src o = true →
      o.mPrefix ∉ (processOptionTable now src t o).published) ∧
    (∀ (P : RaMessage → Prop) (now : Nat) (t : Table), Reach P (now, t) →
      ∀ r ∈ t.routers, r.mEntries ≠ []) := by
  refine ⟨?_, ?_, ?_, ?_⟩
  · intro now o room es h0
    have hb : (o.mValidLifetime == 0) = true := by simpa using h0
    constructor
    · intro e he
      unfold processOptionOnRouter at he
      rw [if_pos hb] at he
      simpa using (List.mem_filter.mp he).2
    · intro e he hk
      unfold processOptionOnRouter
      rw [if_pos hb]
      exact List.mem_filter.mpr ⟨he, by simp [hk]⟩
  · intro now o room es h0
    have hb : (o.mValidLifetime == 0) = false := by simpa using h0
    refine ⟨?_, ?_, ?_⟩
    · intro e he hk
      unfold processOptionOnRouter at he
      rw [hb] at he
      simp only [Bool.false_eq_true, if_false] at he
      by_cases hany : (es.any (entryKeyMatchB o)) = true
      · rw [if_pos hany] at he
        obtain ⟨e0, he0, heq⟩ := List.mem_map.mp he
        by_cases hk0 : entryKeyMatchB o e0 = true
        · rw [if_pos hk0] at heq
          subst heq
          exact ⟨rfl, rfl, rfl⟩
        · rw [if_neg hk0] at heq
          subst heq
          exact absurd hk hk0
      · rw [if_neg hany] at he
        cases room with
        | true =>
          simp only [if_pos rfl] at he
          rcases List.mem_append.mp he with he | he
          · exact absurd (List.any_eq_true.mpr ⟨e, he, hk⟩) hany
          · rcases List.mem_singleton.mp he with rfl
            exact ⟨rfl, rfl, rfl⟩
        | false =>
          simp only [Bool.false_eq_true, if_false] at he
          exact absurd (List.any_eq_true.mpr ⟨e, he, hk⟩) hany
    · intro e he hk
      unfold processOptionOnRouter
      rw [hb]
      simp only [Bool.false_eq_true, if_false]
      by_cases hany : (es.any (entryKeyMatchB o)) = true
      · rw [if_pos hany]
        refine List.mem_map.mpr ⟨e, he, ?_⟩
        rw [if_neg (by simp [hk])]
      · rw [if_neg hany]
        cases room with
        | true =>
          simp only [if_pos rfl]
          exact List.mem_append_left _ he
        | false =>
          simp only [Bool.false_eq_true, if_false]
          exact he
    · intro hex
      unfold processOptionOnRouter
      rw [hb]
      simp only [Bool.false_eq_true, if_false]
      by_cases hany : (es.any (entryKeyMatchB o)) = true
      · rw [if_pos hany]
        obtain ⟨e0, he0, hk0⟩ := List.any_eq_true.mp hany
        refine List.any_eq_true.mpr ⟨_, List.mem_map.mpr ⟨e0, he0, rfl⟩, ?_⟩
        rw [if_pos hk0]
        have hk0' := hk0
        simp only [entryKeyMatchB, Bool.and_eq_true] at hk0'
        obtain ⟨h1, h2⟩ := hk0'
        simp [entryKeyMatchB, Entry.GetType, IncomingOpt.etype, h1]
      · rw [if_neg hany]
        rcases hex with hex | hroom
        · exact absurd hex hany
        · subst hroom
          simp only [if_pos rfl]
          refine List.any_eq_true.mpr ⟨_, List.mem_append_right _ (List.mem_singleton.mpr rfl), ?_⟩
          simp [entryKeyMatchB, Entry.GetType, IncomingOpt.etype]
  · intro now src t o h0 hkey
    have hb : (o.mValidLifetime == 0) = true := by simpa using h0
    have hpub : (processOptionTable now src t o).published =
        t.published.filter (fun q => !(q == o.mPrefix)) := by
      simp [processOptionTable, hb, hkey]
    rw [hpub]
    intro hc
    have h2 := (List.mem_filter.mp hc).2
    simp at h2
  · intro P now t hr
    exact (reach_master P (now, t) hr).2.2.1

/-- Witness for C2: a removal-on-advertise option with
`validLifetime = 0` unpublishes the sample prefix from the table that
stores it. -/
theorem C2_merge_rule_witness :
    samplePfxA ∉ (processOptionTable 5 sampleSrc
      { sampleGoodTable with published := [samplePfxA] }
      (IncomingOpt.mk samplePfxA 0 (.onLink 0))).published :=
  C2_merge_rule.2.2.1 5 sampleSrc
    { sampleGoodTable with published := [samplePfxA] }
    (IncomingOpt.mk samplePfxA 0 (.onLink 0)) rfl (by decide)

/-- Counterexample for C1 as frozen: with byte-identical (empty) Network
Data and byte-identical discovered-prefix information, two Border
Routers whose locally generated OMR prefixes differ select different
`advertisedOmrPrefixes` arrays, so the outputs are not a function of
Network Data and discovered prefixes alone. -/
theorem C1_counterexample :
    (PolicyInputs.mk [] noDiscoveredOnLink samplePfxA samplePfxA).netData =
      (PolicyInputs.mk [] noDiscoveredOnLink samplePfxB samplePfxA).netData ∧
    (PolicyInputs.mk [] noDiscoveredOnLink samplePfxA samplePfxA).favoredDiscoveredOnLinkPrefix =
      (PolicyInputs.mk [] noDiscoveredOnLink samplePfxB samplePfxA).favoredDiscoveredOnLinkPrefix ∧
    evaluateRoutingPolicyOutputs (PolicyInputs.mk [] noDiscoveredOnLink samplePfxA samplePfxA) ≠
      evaluateRoutingPolicyOutputs (PolicyInputs.mk [] noDiscoveredOnLink samplePfxB samplePfxA) := by
  refine ⟨rfl, rfl, ?_⟩
  decide

end OtBr
